import Mathlib

set_option maxRecDepth 100000

/-!
Shallow embedding of the Modbus transport and analog averaging filter of
`FULLSEN.h` (soil/water-quality sensor firmware), together with theorems
settling the specification claims about them.

Modelling conventions:
* Bytes are `Nat` values (with `< 256` hypotheses where byte-ness matters).
* The AVR `unsigned int` CRC accumulator never exceeds `0xFFFF` by
  construction, so plain `Nat` arithmetic is faithful.
* The AVR 16-bit signed `int` decode of the reply payload is modelled by
  `toInt16` (two's complement at width 16).
* `float`/`double` values are modelled as `ℚ`; all arithmetic the claims
  mention (integer-truncated mean, division by `count - 2`, division by 100)
  is exact rational arithmetic.
* Hardware side effects (direction-pin writes, delays, serial byte writes,
  flush, the start of the receive wait) are recorded as an event trace
  `List Ev`; the serial environment is summarised by the list of reply bytes
  that arrive within the operation's polling deadline.
-/

namespace FULLSEN

/-- Hardware events emitted by the Modbus transport: direction-pin writes,
millisecond and microsecond delays, transmitted bytes, a flush of the
transmit buffer, and the point where the receive wait begins. -/
inductive Ev where
  | digitalWrite (pin : Nat) (high : Bool)
  | delayMs (ms : Nat)
  | delayUs (us : Nat)
  | writeB (b : Nat)
  | flush
  | waitReply
deriving DecidableEq, Repr

/-- Pin number of the MAX485 driver-enable line (`ES_DE_PIN 7`). -/
def ES_DE_PIN : Nat := 7

/-- Pin number of the MAX485 receiver-enable line (`ES_RE_PIN 8`). -/
def ES_RE_PIN : Nat := 8

/-- `setRS485Mode(dePin, rePin, transmit)`: drive both direction pins high
for transmit, both low for receive, as the trace of pin writes it performs. -/
def setRS485Mode (dePin rePin : Nat) (transmit : Bool) : List Ev :=
  if transmit then
    [Ev.digitalWrite dePin true, Ev.digitalWrite rePin true]
  else
    [Ev.digitalWrite dePin false, Ev.digitalWrite rePin false]

/-- Body of the inner 8-iteration bit loop of `calculateModbusCRC`:
if the LSB is set, shift right and XOR `0xA001`, else just shift right. -/
def crcBitStep (c : Nat) : Nat :=
  if c &&& 0x0001 ≠ 0 then (c >>> 1) ^^^ 0xA001 else c >>> 1

/-- `calculateModbusCRC(data, length)`: start from `0xFFFF`, XOR in each
byte, then run the bit loop eight times per byte.  The C `length` argument
is the length of the modelled byte list. -/
def calculateModbusCRC (data : List Nat) : Nat :=
  data.foldl
    (fun crc b => (List.range 8).foldl (fun c _ => crcBitStep c) (crc ^^^ b))
    0xFFFF

/-- One bit step of the textbook reflected CRC16 with polynomial `0xA001`,
written with `% 2` and `/ 2` as the spec describes the reflected algorithm. -/
def crc16ReflStep (c : Nat) : Nat :=
  if c % 2 = 1 then (c / 2) ^^^ 0xA001 else c / 2

/-- Standard Modbus CRC16 reference algorithm, following the spec's words:
polynomial `0xA001`, initial value `0xFFFF`, reflected; each input byte is
XORed into the accumulator and the bit step is iterated eight times. -/
def modbusCRC_spec (data : List Nat) : Nat :=
  data.foldl (fun crc b => crc16ReflStep^[8] (crc ^^^ (b % 256))) 0xFFFF

/-- The 8-byte read-holding-registers request frame both transport
operations build: `{slave_id, 0x03, 0x00, 0x00, 0x00, 0x01}` with the CRC
of those six bytes appended low byte first, then high byte. -/
def esRequestFrame (slave_id : Nat) : List Nat :=
  let base := [slave_id, 0x03, 0x00, 0x00, 0x00, 0x01]
  let crc := calculateModbusCRC base
  base ++ [crc &&& 0xFF, (crc >>> 8) &&& 0xFF]

lemma crcBitStep_eq_reflStep (c : Nat) : crcBitStep c = crc16ReflStep c := by
  unfold crcBitStep crc16ReflStep
  rcases Nat.mod_two_eq_zero_or_one c with h | h <;>
    simp [Nat.and_one_is_mod, h, Nat.shiftRight_eq_div_pow]

lemma foldl_range_const (f : Nat → Nat) (n : Nat) (x : Nat) :
    (List.range n).foldl (fun c _ => f c) x = f^[n] x := by
  induction n generalizing x with
  | zero => simp
  | succ n ih =>
      rw [List.range_succ, List.foldl_append, ih]
      simp [Function.iterate_succ_apply']

lemma foldl_congr_mem {α β : Type} (f g : β → α → β) (l : List α)
    (h : ∀ b ∈ l, ∀ s, f s b = g s b) (init : β) :
    l.foldl f init = l.foldl g init := by
  induction l generalizing init with
  | nil => rfl
  | cons x xs ih =>
      simp only [List.foldl_cons]
      rw [h x (by simp)]
      exact ih (fun b hb s => h b (by simp [hb]) s) _

/-- Claim C1: for every byte sequence, `calculateModbusCRC` computes the
standard Modbus CRC16 (polynomial `0xA001`, initial value `0xFFFF`,
reflected), i.e. it agrees with the reference algorithm written from the
spec's words. -/
theorem calculateModbusCRC_eq_spec (data : List Nat)
    (h : ∀ b ∈ data, b < 256) :
    calculateModbusCRC data = modbusCRC_spec data := by
  unfold calculateModbusCRC modbusCRC_spec
  refine foldl_congr_mem _ _ data (fun b hb s => ?_) _
  have hb' : b % 256 = b := Nat.mod_eq_of_lt (h b hb)
  rw [hb']
  have hfun : (fun c (_ : Nat) => crcBitStep c) =
      (fun c _ => crc16ReflStep c) := by
    funext c i
    exact crcBitStep_eq_reflStep c
  rw [hfun, foldl_range_const]

/-- Claim C1 witness: the CRC of the probe request `{02 03 00 00 00 01}`
agrees with the reference algorithm and equals `0x3984`, and likewise for
three further known vectors (`{01 03 00 00 00 01} ↦ 0x0A84`,
`{10 03 00 00 00 01} ↦ 0x4B87`, and the ASCII bytes of `123456789`, whose
Modbus CRC16 check value is `0x4B37`). -/
theorem calculateModbusCRC_eq_spec_witness :
    (calculateModbusCRC [0x02, 0x03, 0x00, 0x00, 0x00, 0x01] =
        modbusCRC_spec [0x02, 0x03, 0x00, 0x00, 0x00, 0x01] ∧
      modbusCRC_spec [0x02, 0x03, 0x00, 0x00, 0x00, 0x01] = 0x3984) ∧
    (calculateModbusCRC [0x01, 0x03, 0x00, 0x00, 0x00, 0x01] =
        modbusCRC_spec [0x01, 0x03, 0x00, 0x00, 0x00, 0x01] ∧
      modbusCRC_spec [0x01, 0x03, 0x00, 0x00, 0x00, 0x01] = 0x0A84) ∧
    (calculateModbusCRC [0x10, 0x03, 0x00, 0x00, 0x00, 0x01] =
        modbusCRC_spec [0x10, 0x03, 0x00, 0x00, 0x00, 0x01] ∧
      modbusCRC_spec [0x10, 0x03, 0x00, 0x00, 0x00, 0x01] = 0x4B87) ∧
    (calculateModbusCRC [0x31, 0x32, 0x33, 0x34, 0x35, 0x36, 0x37, 0x38, 0x39] =
        modbusCRC_spec [0x31, 0x32, 0x33, 0x34, 0x35, 0x36, 0x37, 0x38, 0x39] ∧
      modbusCRC_spec [0x31, 0x32, 0x33, 0x34, 0x35, 0x36, 0x37, 0x38, 0x39] = 0x4B37) :=
  ⟨⟨calculateModbusCRC_eq_spec _ (by decide), by decide⟩,
   ⟨calculateModbusCRC_eq_spec _ (by decide), by decide⟩,
   ⟨calculateModbusCRC_eq_spec _ (by decide), by decide⟩,
   ⟨calculateModbusCRC_eq_spec _ (by decide), by decide⟩⟩

/-- Candidate slave addresses probed during discovery
(`slave_ids_to_try[] = {0x01,0x02,0x03,0x10,0x20,0x30,0x40,0x50}`). -/
def slave_ids_to_try : List Nat := [0x01, 0x02, 0x03, 0x10, 0x20, 0x30, 0x40, 0x50]

/-- `tryESSlaveID(slave_id)`: clear the buffer, build the probe frame, switch
to transmit, settle 10 ms, write the 8 frame bytes, flush, settle 10 ms,
switch back to receive, then wait up to 500 ms for any inbound byte.
`availBytes` is the number of reply bytes the bus makes available within
that window; the probe succeeds iff it is positive.  The first component is
the emitted hardware event trace. -/
def tryESSlaveID (slave_id : Nat) (availBytes : Nat) : List Ev × Bool :=
  let request := esRequestFrame slave_id
  let trace :=
    setRS485Mode ES_DE_PIN ES_RE_PIN true ++ [Ev.delayMs 10] ++
      request.map Ev.writeB ++ [Ev.flush, Ev.delayMs 10] ++
      setRS485Mode ES_DE_PIN ES_RE_PIN false ++ [Ev.waitReply]
  (trace, decide (0 < availBytes))

/-- Recursive core of `testESCommunication`: walk the candidate list, probe
each id, stop at the first success (adopting that id), keep the current id
on total failure.  The final component is the list of ids actually probed. -/
def testESLoop (avail : Nat → Nat) (cur : Nat) : List Nat → Bool × Nat × List Nat
  | [] => (false, cur, [])
  | id :: rest =>
      if (tryESSlaveID id (avail id)).2 then
        (true, id, [id])
      else
        let r := testESLoop avail cur rest
        (r.1, r.2.1, id :: r.2.2)

/-- `testESCommunication()`: probe the fixed candidate list in order; on the
first responding id set `ES_SLAVE_ID` to it and return, otherwise leave
`ES_SLAVE_ID` (`cur`) unchanged.  `avail id` is the number of bytes the bus
would make available within 500 ms of probing `id`. -/
def testESCommunication (avail : Nat → Nat) (cur : Nat) : Bool × Nat × List Nat :=
  testESLoop avail cur slave_ids_to_try

/-- Result classification of `readESPHSoilSensor`, read off the diagnostics
it prints: a decoded value, an invalid-response report, or a timeout. -/
inductive ReadResult where
  | ok
  | decodeMismatch
  | timeout
deriving DecidableEq, Repr

/-- Two's-complement reinterpretation of a natural number at width 16,
the value an AVR 16-bit signed `int` holds after the `(hi << 8) | lo`
computation. -/
def toInt16 (n : Nat) : Int :=
  if n % 65536 < 32768 then ((n % 65536 : Nat) : Int)
  else ((n % 65536 : Nat) : Int) - 65536

/-- Everything observable about one `readESPHSoilSensor()` call: the
hardware event trace, the result classification, the value of
`esPHSoilValue` afterwards, and the reply bytes left in the serial buffer. -/
structure ReadOutcome where
  trace : List Ev
  result : ReadResult
  newValue : ℚ
  leftover : List Nat
deriving DecidableEq, Repr

/-- `readESPHSoilSensor()`: clear the buffer, build the request to
`ES_SLAVE_ID` (`slaveId`), switch to transmit, settle 5 ms, write the 8
bytes (100 µs apart), flush, settle 5 ms, switch to receive, and wait up to
1000 ms for at least 7 reply bytes.  `arrived` is the list of reply bytes
the bus delivers within that deadline, in order.  With at least 7 bytes the
first 7 are read and accepted iff byte 0 echoes the slave id and byte 1 is
`0x03`; acceptance stores `((response[3] << 8) | response[4]) / 100.0` into
`esPHSoilValue` (`oldValue` otherwise); with fewer than 7 bytes the read
times out and drains the partial bytes. -/
def readESPHSoilSensor (slaveId : Nat) (oldValue : ℚ) (arrived : List Nat) :
    ReadOutcome :=
  let request := esRequestFrame slaveId
  let trace :=
    setRS485Mode ES_DE_PIN ES_RE_PIN true ++ [Ev.delayMs 5] ++
      request.flatMap (fun b => [Ev.writeB b, Ev.delayUs 100]) ++
      [Ev.flush, Ev.delayMs 5] ++
      setRS485Mode ES_DE_PIN ES_RE_PIN false ++ [Ev.waitReply]
  let outcome : ReadResult × ℚ × List Nat :=
    if 7 ≤ arrived.length then
      let response := arrived.take 7
      let bytesRead := 7
      if 5 ≤ bytesRead ∧ response.getD 0 0 = slaveId ∧ response.getD 1 0 = 3 then
        let phRaw := toInt16 (((response.getD 3 0) <<< 8) ||| (response.getD 4 0))
        (ReadResult.ok, (phRaw : ℚ) / 100, arrived.drop 7)
      else
        (ReadResult.decodeMismatch, oldValue, arrived.drop 7)
    else
      (ReadResult.timeout, oldValue, [])
  ⟨trace, outcome.1, outcome.2.1, outcome.2.2⟩

/-- State transition of the two RS485 direction pins (`DE` state, `RE`
state) under one hardware event. -/
def pinStep (s : Bool × Bool) (e : Ev) : Bool × Bool :=
  match e with
  | Ev.digitalWrite p h =>
      if p = ES_DE_PIN then (h, s.2)
      else if p = ES_RE_PIN then (s.1, h) else s
  | _ => s

/-- Direction-pin state after running a whole event trace. -/
def pinsAfter (t : List Ev) (s : Bool × Bool) : Bool × Bool :=
  t.foldl pinStep s

/-- Direction-pin state at the first event satisfying `stop` (exclusive);
the state at the end of the trace if no event satisfies it. -/
def pinsUntil (stop : Ev → Bool) : List Ev → Bool × Bool → Bool × Bool
  | [], s => s
  | e :: r, s => if stop e then s else pinsUntil stop r (pinStep s e)

/-- Total milliseconds of `delay` calls strictly before the first event
satisfying `stop`. -/
def msDelaysUntil (stop : Ev → Bool) : List Ev → Nat
  | [] => 0
  | e :: r =>
      if stop e then 0
      else (match e with | Ev.delayMs n => n | _ => 0) + msDelaysUntil stop r

/-- Whether an event is a transmitted byte. -/
def Ev.isWrite : Ev → Bool
  | Ev.writeB _ => true
  | _ => false

/-- Whether an event is the start of the receive wait. -/
def Ev.isWait : Ev → Bool
  | Ev.waitReply => true
  | _ => false

/-- The bytes a trace writes to the serial channel, in order. -/
def writesOf (t : List Ev) : List Nat :=
  t.filterMap (fun e => match e with | Ev.writeB b => some b | _ => none)

/-- A trace is an operation trace if some `tryESSlaveID` or
`readESPHSoilSensor` call emits it. -/
def IsOpTrace (t : List Ev) : Prop :=
  (∃ id avail, t = (tryESSlaveID id avail).1) ∨
    (∃ id old arrived, t = (readESPHSoilSensor id old arrived).trace)

/-- Result of `avergearray`: whether the invalid-input diagnostic was
printed, and the returned `double` (modelled as `ℚ`). -/
structure AvgResult where
  errorReported : Bool
  value : ℚ
deriving DecidableEq, Repr

/-- Loop body of the `number ≥ 5` branch of `avergearray`, acting on the
state `(min, max, amount)`: a sample below `min` banks the old `min` and
replaces it, a sample above `max` banks the old `max` and replaces it, and
anything in between is added to `amount` directly. -/
def trimStep (s : Int × Int × Int) (x : Int) : Int × Int × Int :=
  let (mn, mx, amount) := s
  if x < mn then (x, mx, amount + mn)
  else if x > mx then (mn, x, amount + mx)
  else (mn, mx, amount + x)

/-- `avergearray(arr, number)`: for `number ≤ 0` print the error and return
0; for `number < 5` return the integer-truncated mean; otherwise seed
`min`/`max` from the first two samples (ordered), stream the rest through
`trimStep`, and divide the banked total by `number - 2` as a `double`
division.  `arr` is the array as a map from index to sample. -/
def avergearray (arr : Nat → Int) (number : Int) : AvgResult :=
  if number ≤ 0 then ⟨true, 0⟩
  else if number < 5 then
    let amount := (List.range number.toNat).foldl (fun a i => a + arr i) (0 : Int)
    ⟨false, ((Int.tdiv amount number : Int) : ℚ)⟩
  else
    let seed : Int × Int :=
      if arr 0 < arr 1 then (arr 0, arr 1) else (arr 1, arr 0)
    let st :=
      (List.range' 2 (number.toNat - 2)).foldl
        (fun s i => trimStep s (arr i)) (seed.1, seed.2, (0 : Int))
    ⟨false, (st.2.2 : ℚ) / ((number : ℚ) - 2)⟩

/-- An array given by a list of samples (reads beyond the list return 0;
the modelled calls never perform such reads). -/
def listArr (l : List Int) : Nat → Int := fun i => l.getD i 0

/-- Minimum of a list of samples, 0 for the empty list. -/
def listMinD : List Int → Int
  | [] => 0
  | x :: xs => xs.foldl min x

/-- Maximum of a list of samples, 0 for the empty list. -/
def listMaxD : List Int → Int
  | [] => 0
  | x :: xs => xs.foldl max x

/-- Naive reference trimmed mean, following the claim's words: the sum of
all `number` samples minus the global minimum and the global maximum, then
divided by `number - 2` as an exact (floating-point) division. -/
def trimmedMeanRef (arr : Nat → Int) (number : Int) : ℚ :=
  let samples := (List.range number.toNat).map arr
  ((samples.sum - listMinD samples - listMaxD samples : Int) : ℚ) /
    ((number : ℚ) - 2)

lemma trimStep_foldl (xs : List Int) :
    ∀ mn mx a : Int, mn ≤ mx →
      xs.foldl trimStep (mn, mx, a) =
        (xs.foldl min mn, xs.foldl max mx,
          a + xs.sum + mn + mx - xs.foldl min mn - xs.foldl max mx) := by
  induction xs with
  | nil => intro mn mx a h; simp; ring
  | cons x xs ih =>
      intro mn mx a h
      simp only [List.foldl_cons, List.sum_cons]
      by_cases h1 : x < mn
      · have hxmx : x ≤ mx := le_trans h1.le h
        have hmin : min mn x = x := min_eq_right h1.le
        have hmax : max mx x = mx := max_eq_left hxmx
        rw [show trimStep (mn, mx, a) x = (x, mx, a + mn) from by
          simp [trimStep, h1]]
        rw [ih x mx (a + mn) hxmx, hmin, hmax]
        simp only [Prod.mk.injEq, true_and]
        ring
      · by_cases h2 : x > mx
        · have hmnx : mn ≤ x := le_of_not_lt h1
          have hmin : min mn x = mn := min_eq_left hmnx
          have hmax : max mx x = x := max_eq_right h2.le
          rw [show trimStep (mn, mx, a) x = (mn, x, a + mx) from by
            simp [trimStep, h1, h2]]
          rw [ih mn x (a + mx) hmnx, hmin, hmax]
          simp only [Prod.mk.injEq, true_and]
          ring
        · have hmnx : mn ≤ x := le_of_not_lt h1
          have hxmx : x ≤ mx := le_of_not_lt h2
          have hmin : min mn x = mn := min_eq_left hmnx
          have hmax : max mx x = mx := max_eq_left hxmx
          rw [show trimStep (mn, mx, a) x = (mn, mx, a + x) from by
            simp [trimStep, h1, h2]]
          rw [ih mn mx (a + x) h, hmin, hmax]
          simp only [Prod.mk.injEq, true_and]
          ring

/-- Claim C2: `avergearray` on the single-element array `[5]` with count 1
returns 5 (the `count < 5` path), and on `[1,…,10]` with count 10 returns
`(2+3+4+5+6+7+8+9)/8 = 5.5`, the mean after excluding the true minimum 1
and the true maximum 10. -/
theorem avergearray_examples :
    avergearray (listArr [5]) 1 = ⟨false, 5⟩ ∧
    avergearray (listArr [1, 2, 3, 4, 5, 6, 7, 8, 9, 10]) 10 =
      ⟨false, (11 : ℚ) / 2⟩ := by
  constructor
  · unfold avergearray listArr
    norm_num [List.range_succ]
  · unfold avergearray listArr
    norm_num [List.range', trimStep]

/-- Claim C9: for every array and every count `≤ 0`, `avergearray` prints
the invalid-input diagnostic and returns 0; the result is the same constant
for every array, so no array element is read. -/
theorem avergearray_nonpos (arr : Nat → Int) (number : Int)
    (h : number ≤ 0) : avergearray arr number = ⟨true, 0⟩ := by
  unfold avergearray
  rw [if_pos h]

/-- Claim C9 witness: at count `-3` the filter reports the error and yields
0 (on an array that is constantly 7). -/
theorem avergearray_nonpos_witness :
    avergearray (fun _ => 7) (-3) = ⟨true, 0⟩ :=
  avergearray_nonpos _ _ (by decide)

/-- Claim C10: for every array and every count `≥ 5`, the streaming
single-pass algorithm of `avergearray` returns exactly
`(sum − global min − global max) / (count − 2)`, the naive reference that
removes one occurrence of the global minimum and one of the global maximum
and averages the rest; no ordering of the samples makes it deviate. -/
theorem avergearray_eq_trimmedMeanRef (arr : Nat → Int) (number : Int)
    (h : 5 ≤ number) :
    avergearray arr number = ⟨false, trimmedMeanRef arr number⟩ := by
  have h0 : ¬ number ≤ 0 := by omega
  have h5 : ¬ number < 5 := by omega
  obtain ⟨m, hm⟩ : ∃ m, number.toNat = m + 2 := ⟨number.toNat - 2, by omega⟩
  have hm2 : number.toNat - 2 = m := by omega
  have hrange : List.range number.toNat = 0 :: 1 :: List.range' 2 m := by
    rw [List.range_eq_range', hm, List.range'_succ, List.range'_succ]
  have hseed : (if arr 0 < arr 1 then (arr 0, arr 1) else (arr 1, arr 0)) =
      (min (arr 0) (arr 1), max (arr 0) (arr 1)) := by
    rcases lt_or_le (arr 0) (arr 1) with h01 | h01
    · rw [if_pos h01, min_eq_left h01.le, max_eq_right h01.le]
    · rw [if_neg (not_lt.mpr h01), min_eq_right h01, max_eq_left h01]
  simp only [avergearray, trimmedMeanRef, if_neg h0, if_neg h5, hrange, hm2,
    hseed, List.map_cons]
  refine congrArg (AvgResult.mk false) ?_
  rw [show (∀ l init, List.foldl (fun s i => trimStep s (arr i)) init l =
        List.foldl trimStep init (l.map arr)) from
      fun l init => (List.foldl_map arr trimStep l init).symm]
  rw [trimStep_foldl _ _ _ _ (min_le_max)]
  have hkey :
      0 + ((List.range' 2 m).map arr).sum + min (arr 0) (arr 1) +
            max (arr 0) (arr 1) -
          ((List.range' 2 m).map arr).foldl min (min (arr 0) (arr 1)) -
          ((List.range' 2 m).map arr).foldl max (max (arr 0) (arr 1)) =
        (arr 0 :: arr 1 :: (List.range' 2 m).map arr).sum -
          listMinD (arr 0 :: arr 1 :: (List.range' 2 m).map arr) -
          listMaxD (arr 0 :: arr 1 :: (List.range' 2 m).map arr) := by
    simp only [listMinD, listMaxD, List.sum_cons, List.foldl_cons]
    have hmm : min (arr 0) (arr 1) + max (arr 0) (arr 1) = arr 0 + arr 1 := by
      rcases le_total (arr 0) (arr 1) with h01 | h01
      · rw [min_eq_left h01, max_eq_right h01]
      · rw [min_eq_right h01, max_eq_left h01]; ring
    omega
  exact congrArg (fun z : Int => (z : ℚ) / ((number : ℚ) - 2)) hkey

/-- Claim C10 witness: at the concrete window `[1,…,10]` with count 10 the
streaming filter and the naive sum-minus-extremes reference agree. -/
theorem avergearray_eq_trimmedMeanRef_witness :
    avergearray (listArr [1, 2, 3, 4, 5, 6, 7, 8, 9, 10]) 10 =
      ⟨false, trimmedMeanRef (listArr [1, 2, 3, 4, 5, 6, 7, 8, 9, 10]) 10⟩ :=
  avergearray_eq_trimmedMeanRef _ _ (by decide)

lemma getD_take (l : List Nat) : ∀ n i : Nat, i < n →
    (l.take n).getD i 0 = l.getD i 0 := by
  induction l with
  | nil => intro n i h; simp
  | cons x xs ih =>
      intro n i h
      cases n with
      | zero => omega
      | succ n =>
          cases i with
          | zero => simp [List.take_succ_cons]
          | succ i =>
              simp only [List.take_succ_cons, List.getD_cons_succ]
              exact ih n i (by omega)

lemma getD_lt256 (l : List Nat) (i : Nat) (hi : i < l.length)
    (h : ∀ b ∈ l, b < 256) : l.getD i 0 < 256 := by
  rw [List.getD_eq_getElem l 0 hi]
  exact h _ (List.getElem_mem hi)

lemma shiftLeft8_lor (a b : Nat) (hb : b < 256) :
    (a <<< 8) ||| b = 256 * a + b := by
  have h := Nat.mul_add_lt_is_or (i := 8) (b := b) (by simpa using hb) a
  rw [Nat.shiftLeft_eq]
  calc a * 2 ^ 8 ||| b = 2 ^ 8 * a ||| b := by rw [Nat.mul_comm]
    _ = 2 ^ 8 * a + b := h.symm
    _ = 256 * a + b := by norm_num

lemma read_result_eval (slaveId : Nat) (old : ℚ) (arrived : List Nat)
    (h7 : 7 ≤ arrived.length) :
    (readESPHSoilSensor slaveId old arrived).result =
      if arrived.getD 0 0 = slaveId ∧ arrived.getD 1 0 = 3
      then ReadResult.ok else ReadResult.decodeMismatch := by
  have e0 := getD_take arrived 7 0 (by omega)
  have e1 := getD_take arrived 7 1 (by omega)
  have h57 : (5 : Nat) ≤ 7 := by norm_num
  simp only [readESPHSoilSensor, e0, e1, h7, h57, if_true, true_and]
  split_ifs <;> rfl

lemma read_newValue_eval (slaveId : Nat) (old : ℚ) (arrived : List Nat)
    (h7 : 7 ≤ arrived.length) :
    (readESPHSoilSensor slaveId old arrived).newValue =
      if arrived.getD 0 0 = slaveId ∧ arrived.getD 1 0 = 3
      then (toInt16 ((arrived.getD 3 0 <<< 8) ||| arrived.getD 4 0) : ℚ) / 100
      else old := by
  have e0 := getD_take arrived 7 0 (by omega)
  have e1 := getD_take arrived 7 1 (by omega)
  have e3 := getD_take arrived 7 3 (by omega)
  have e4 := getD_take arrived 7 4 (by omega)
  have h57 : (5 : Nat) ≤ 7 := by norm_num
  simp only [readESPHSoilSensor, e0, e1, e3, e4, h7, h57, if_true, true_and]
  split_ifs <;> rfl

lemma read_timeout_eval (slaveId : Nat) (old : ℚ) (arrived : List Nat)
    (h : arrived.length < 7) :
    (readESPHSoilSensor slaveId old arrived).result = ReadResult.timeout ∧
    (readESPHSoilSensor slaveId old arrived).newValue = old ∧
    (readESPHSoilSensor slaveId old arrived).leftover = [] := by
  have h7 : ¬ 7 ≤ arrived.length := by omega
  simp [readESPHSoilSensor, h7]

/-- Claim C3: when at least 7 reply bytes arrive within the deadline, the
reply is accepted iff byte 0 equals the confirmed address and byte 1 equals
the function code `0x03`; on acceptance `esPHSoilValue` becomes the
big-endian 16-bit integer decoded from the two payload bytes (bytes 3 and
4, two's complement at the AVR's 16-bit `int` width) divided by 100, and on
mismatch a decode failure is reported. -/
theorem readESPHSoilSensor_accept_iff (slaveId : Nat) (old : ℚ)
    (arrived : List Nat) (h7 : 7 ≤ arrived.length)
    (hb : ∀ b ∈ arrived, b < 256) :
    ((readESPHSoilSensor slaveId old arrived).result = ReadResult.ok ↔
      (arrived.getD 0 0 = slaveId ∧ arrived.getD 1 0 = 3)) ∧
    (arrived.getD 0 0 = slaveId → arrived.getD 1 0 = 3 →
      (readESPHSoilSensor slaveId old arrived).newValue =
        (toInt16 (256 * arrived.getD 3 0 + arrived.getD 4 0) : ℚ) / 100) ∧
    ((arrived.getD 0 0 ≠ slaveId ∨ arrived.getD 1 0 ≠ 3) →
      (readESPHSoilSensor slaveId old arrived).result =
        ReadResult.decodeMismatch) := by
  have hres := read_result_eval slaveId old arrived h7
  have hval := read_newValue_eval slaveId old arrived h7
  have hb4 : arrived.getD 4 0 < 256 := getD_lt256 arrived 4 (by omega) hb
  refine ⟨?_, ?_, ?_⟩
  · rw [hres]
    split_ifs with hc
    · exact iff_of_true rfl hc
    · exact iff_of_false (by decide) hc
  · intro ha hf
    rw [hval, if_pos ⟨ha, hf⟩, shiftLeft8_lor _ _ hb4]
  · intro hor
    rw [hres, if_neg (by tauto)]

/-- Claim C3 witness: for the well-formed 7-byte reply
`{02 03 02 01 2C 00 00}` to address `0x02`, the read is accepted and the
stored value is `0x012C / 100 = 3`. -/
theorem readESPHSoilSensor_accept_iff_witness :
    (readESPHSoilSensor 2 42 [2, 3, 2, 1, 44, 0, 0]).result = ReadResult.ok ∧
    (readESPHSoilSensor 2 42 [2, 3, 2, 1, 44, 0, 0]).newValue = 3 := by
  have h := readESPHSoilSensor_accept_iff 2 42 [2, 3, 2, 1, 44, 0, 0]
    (by decide) (by decide)
  refine ⟨h.1.mpr (by decide), ?_⟩
  rw [h.2.1 (by decide) (by decide)]
  norm_num [toInt16]

/-- Claim C4: a timeout (fewer than 7 reply bytes within the deadline,
partial bytes discarded) and a decode mismatch (echoed address or function
code differs from the request) both leave the last-known sensor value
unchanged. -/
theorem readESPHSoilSensor_failure_preserves (slaveId : Nat) (old : ℚ)
    (arrived : List Nat) :
    (arrived.length < 7 →
      (readESPHSoilSensor slaveId old arrived).result = ReadResult.timeout ∧
      (readESPHSoilSensor slaveId old arrived).newValue = old ∧
      (readESPHSoilSensor slaveId old arrived).leftover = []) ∧
    (7 ≤ arrived.length →
      (arrived.getD 0 0 ≠ slaveId ∨ arrived.getD 1 0 ≠ 3) →
      (readESPHSoilSensor slaveId old arrived).result =
        ReadResult.decodeMismatch ∧
      (readESPHSoilSensor slaveId old arrived).newValue = old) := by
  refine ⟨fun hlt => read_timeout_eval slaveId old arrived hlt,
    fun h7 hor => ?_⟩
  have hne : ¬ (arrived.getD 0 0 = slaveId ∧ arrived.getD 1 0 = 3) := by tauto
  rw [read_result_eval slaveId old arrived h7,
    read_newValue_eval slaveId old arrived h7, if_neg hne, if_neg hne]
  exact ⟨rfl, rfl⟩

/-- Claim C4 witness: an empty reply times out with the value 42 intact and
the buffer drained, and the reply `{09 03 …}` to address 2 reports a decode
mismatch with the value 42 intact. -/
theorem readESPHSoilSensor_failure_preserves_witness :
    ((readESPHSoilSensor 2 42 []).result = ReadResult.timeout ∧
      (readESPHSoilSensor 2 42 []).newValue = 42 ∧
      (readESPHSoilSensor 2 42 []).leftover = []) ∧
    ((readESPHSoilSensor 2 42 [9, 3, 2, 1, 44, 0, 0]).result =
        ReadResult.decodeMismatch ∧
      (readESPHSoilSensor 2 42 [9, 3, 2, 1, 44, 0, 0]).newValue = 42) :=
  ⟨(readESPHSoilSensor_failure_preserves 2 42 []).1 (by decide),
    (readESPHSoilSensor_failure_preserves 2 42 [9, 3, 2, 1, 44, 0, 0]).2
      (by decide) (Or.inl (by decide))⟩

lemma testESLoop_spec (avail : Nat → Nat) (cur : Nat) (ids : List Nat) :
    (ids.find? (fun i => (tryESSlaveID i (avail i)).2) = none →
      testESLoop avail cur ids = (false, cur, ids)) ∧
    (∀ id, ids.find? (fun i => (tryESSlaveID i (avail i)).2) = some id →
      testESLoop avail cur ids =
        (true, id,
          ids.takeWhile (fun i => !(tryESSlaveID i (avail i)).2) ++ [id])) := by
  induction ids with
  | nil => exact ⟨fun _ => rfl, fun id h => by simp at h⟩
  | cons x rest ih =>
      by_cases hx : (tryESSlaveID x (avail x)).2
      · refine ⟨fun hnone => ?_, fun id hid => ?_⟩
        · rw [@List.find?_cons_of_pos Nat (fun i => (tryESSlaveID i (avail i)).2) x rest hx] at hnone
          cases hnone
        · rw [@List.find?_cons_of_pos Nat (fun i => (tryESSlaveID i (avail i)).2) x rest hx] at hid
          obtain rfl : x = id := by injection hid
          unfold testESLoop
          rw [if_pos hx]
          simp [List.takeWhile_cons, hx]
      · refine ⟨fun hnone => ?_, fun id hid => ?_⟩
        · rw [@List.find?_cons_of_neg Nat (fun i => (tryESSlaveID i (avail i)).2) x rest hx] at hnone
          unfold testESLoop
          rw [if_neg hx, ih.1 hnone]
        · rw [@List.find?_cons_of_neg Nat (fun i => (tryESSlaveID i (avail i)).2) x rest hx] at hid
          unfold testESLoop
          rw [if_neg hx, ih.2 id hid]
          simp [List.takeWhile_cons, hx]

/-- Claim C5: discovery probes the fixed candidate list
`{0x01,0x02,0x03,0x10,0x20,0x30,0x40,0x50}` in order; the first candidate
whose probe sees any inbound byte within 500 ms is adopted as
`ES_SLAVE_ID` and the probed list is exactly the prefix of candidates up to
and including it (no later candidate is probed); if no candidate responds,
discovery fails and `ES_SLAVE_ID` keeps its previous value. -/
theorem testESCommunication_discovery (avail : Nat → Nat) (cur : Nat) :
    (slave_ids_to_try.find? (fun i => (tryESSlaveID i (avail i)).2) = none →
      testESCommunication avail cur = (false, cur, slave_ids_to_try)) ∧
    (∀ id,
      slave_ids_to_try.find? (fun i => (tryESSlaveID i (avail i)).2) = some id →
      testESCommunication avail cur =
        (true, id,
          slave_ids_to_try.takeWhile (fun i => !(tryESSlaveID i (avail i)).2)
            ++ [id])) :=
  testESLoop_spec avail cur slave_ids_to_try

/-- Claim C5 witness: on a bus that responds only at address `0x10`,
discovery confirms `0x10` after probing exactly `0x01, 0x02, 0x03, 0x10`;
on a silent bus, discovery fails and keeps the previous address `0x02`. -/
theorem testESCommunication_discovery_witness :
    testESCommunication (fun i => if i == 16 then 1 else 0) 2 =
      (true, 16, [1, 2, 3, 16]) ∧
    testESCommunication (fun _ => 0) 2 = (false, 2, slave_ids_to_try) := by
  constructor
  · have h := (testESCommunication_discovery
      (fun i => if i == 16 then 1 else 0) 2).2 16 (by decide)
    rw [h]
    decide
  · exact (testESCommunication_discovery (fun _ => 0) 2).1 (by decide)

/-- Claim C6 counterexample: in the full read (`readESPHSoilSensor`) the
settle delay held between asserting transmit and writing the first request
byte is 5 ms, so the claimed bound of at least 10 ms fails there. -/
theorem transmit_settle_delay_cex :
    msDelaysUntil Ev.isWrite (readESPHSoilSensor 0x02 0 []).trace = 5 ∧
    ¬ 10 ≤ msDelaysUntil Ev.isWrite (readESPHSoilSensor 0x02 0 []).trace := by
  decide

/-- Claim C6 (amended): in every transmit sequence, transmit enable is
asserted on both direction lines before the first request byte is written
and held for a settle delay of 10 ms in the discovery probe but only 5 ms
in the full read. -/
theorem transmit_settle_delays (id availBytes : Nat) (old : ℚ)
    (arrived : List Nat) :
    pinsUntil Ev.isWrite (tryESSlaveID id availBytes).1 (false, false) =
      (true, true) ∧
    msDelaysUntil Ev.isWrite (tryESSlaveID id availBytes).1 = 10 ∧
    pinsUntil Ev.isWrite (readESPHSoilSensor id old arrived).trace
      (false, false) = (true, true) ∧
    msDelaysUntil Ev.isWrite (readESPHSoilSensor id old arrived).trace = 5 :=
  ⟨rfl, rfl, rfl, rfl⟩

/-- Claim C7: both transport operations transmit exactly the 8-byte frame
`{slave address, 0x03, 0x00, 0x00, 0x00, 0x01, CRC low, CRC high}`, where
the CRC is `calculateModbusCRC` of the first 6 bytes, appended low byte
first then high byte. -/
theorem requestFrame_shape (id availBytes : Nat) (old : ℚ)
    (arrived : List Nat) :
    writesOf (tryESSlaveID id availBytes).1 = esRequestFrame id ∧
    writesOf (readESPHSoilSensor id old arrived).trace = esRequestFrame id ∧
    esRequestFrame id =
      [id, 0x03, 0x00, 0x00, 0x00, 0x01,
        calculateModbusCRC [id, 0x03, 0x00, 0x00, 0x00, 0x01] &&& 0xFF,
        (calculateModbusCRC [id, 0x03, 0x00, 0x00, 0x00, 0x01] >>> 8) &&& 0xFF] ∧
    (esRequestFrame id).length = 8 ∧
    (esRequestFrame id).take 6 = [id, 0x03, 0x00, 0x00, 0x00, 0x01] :=
  ⟨rfl, rfl, rfl, rfl, rfl⟩

lemma opTrace_rx (t : List Ev) (h : IsOpTrace t) (s : Bool × Bool) :
    pinsUntil Ev.isWait t s = (false, false) ∧
    pinsAfter t s = (false, false) := by
  rcases h with ⟨id, avail, rfl⟩ | ⟨id, old, arrived, rfl⟩
  · exact ⟨rfl, rfl⟩
  · exact ⟨rfl, rfl⟩

lemma pinsAfter_flatten_rx (ts : List (List Ev))
    (h : ∀ t ∈ ts, IsOpTrace t) (hne : ts ≠ []) (s : Bool × Bool) :
    pinsAfter ts.flatten s = (false, false) := by
  induction ts generalizing s with
  | nil => exact absurd rfl hne
  | cons t rest ih =>
      have ht : IsOpTrace t := h t (by simp)
      rw [List.flatten_cons]
      unfold pinsAfter
      rw [List.foldl_append]
      cases rest with
      | nil =>
          simp only [List.flatten_nil, List.foldl_nil]
          exact (opTrace_rx t ht s).2
      | cons u us =>
          exact ih (fun x hx => h x (by simp [hx])) (by simp) _

/-- Claim C8: across any sequence of transport operations, the RS485
direction lines are back in receive mode (both low) at the point where each
operation's receive wait begins and when it returns, whatever state the
lines started in; hence the lines are never left transmit-asserted between
operations. -/
theorem rs485_returns_to_receive (ts : List (List Ev))
    (h : ∀ t ∈ ts, IsOpTrace t) :
    (∀ t ∈ ts, ∀ s, pinsUntil Ev.isWait t s = (false, false) ∧
      pinsAfter t s = (false, false)) ∧
    (ts ≠ [] → ∀ s, pinsAfter ts.flatten s = (false, false)) :=
  ⟨fun t ht s => opTrace_rx t (h t ht) s,
    fun hne s => pinsAfter_flatten_rx ts h hne s⟩

/-- Claim C8 witness: after a probe of address 2 followed by a full read,
starting from a transmit-asserted line state, the lines end in receive
mode, and within the read they are in receive mode when the wait begins. -/
theorem rs485_returns_to_receive_witness :
    pinsAfter ([(tryESSlaveID 2 0).1,
      (readESPHSoilSensor 2 0 []).trace] : List (List Ev)).flatten
      (true, true) = (false, false) ∧
    pinsUntil Ev.isWait (readESPHSoilSensor 2 0 []).trace (true, true) =
      (false, false) := by
  have hts : ∀ t ∈ ([(tryESSlaveID 2 0).1,
      (readESPHSoilSensor 2 0 []).trace] : List (List Ev)), IsOpTrace t := by
    intro t ht
    simp only [List.mem_cons, List.not_mem_nil, or_false] at ht
    rcases ht with rfl | rfl
    · exact Or.inl ⟨2, 0, rfl⟩
    · exact Or.inr ⟨2, 0, [], rfl⟩
  have h := rs485_returns_to_receive _ hts
  exact ⟨h.2 (by simp) (true, true), (h.1 _ (by simp) (true, true)).1⟩

end FULLSEN
